import Mathlib

/-!
Shallow embedding of the shadowsocks-go relay server (qunxyz/shadowsocks-go)
and proofs checking its natural-language specification against the code.

Byte strings are modelled as lists of natural numbers (each byte a Nat below
256 where it matters).  Machine integers are Nat with explicit truncation
mod 256 where the Go code converts to byte.  Fallible operations return
Option, with none standing both for a returned Go error and for a Go
runtime panic (each occurrence is annotated).
-/

namespace SS

/-! ## AEAD chunk framing: ConnAead.Pack / ConnAead.UnPack (part_001) -/

/-- The fixed per-message AEAD authentication-tag size, the value returned by
the Go CipherInst.Enc.Overhead() and CipherInst.Dec.Overhead() calls (16 for
all AEAD methods the repository wires in). -/
def tagOverhead : Nat := 16

/-- Modelled from the spec: the AEAD primitive behind CipherAead.Encrypt is
not under src/; per section 4.2 each message is independently
authenticate-and-encrypted under the current nonce, producing ciphertext of
the plaintext length plus a fixed tag.  Concretely: each byte is shifted by
the nonce mod 256, and the tag records the nonce mod 256. -/
def aeadSeal (nonce : Nat) (pt : List Nat) : List Nat :=
  pt.map (fun b => (b + nonce) % 256) ++ List.replicate tagOverhead (nonce % 256)

/-- Modelled from the spec: inverse of aeadSeal; fails (AuthenticationFailure)
when the trailing tag does not match the expected tag for the nonce. -/
def aeadOpen (nonce : Nat) (ct : List Nat) : Option (List Nat) :=
  if ct.length < tagOverhead then none
  else if ct.drop (ct.length - tagOverhead) = List.replicate tagOverhead (nonce % 256) then
    some ((ct.take (ct.length - tagOverhead)).map (fun b => (b + 256 - nonce % 256) % 256))
  else none

/-- The per-direction cipher state: a monotonically incremented nonce counter
(spec section 4.2: the nonce is shared and incremented across the header and
payload sub-messages of a chunk and across chunks). -/
structure CipherState where
  nonce : Nat
deriving DecidableEq

/-- CipherInst.Encrypt: seal under the current nonce, then increment it. -/
def Encrypt (st : CipherState) (pt : List Nat) : List Nat × CipherState :=
  (aeadSeal st.nonce pt, ⟨st.nonce + 1⟩)

/-- CipherInst.Decrypt: open under the current nonce, then increment it. -/
def Decrypt (st : CipherState) (ct : List Nat) : Option (List Nat) × CipherState :=
  (aeadOpen st.nonce ct, ⟨st.nonce + 1⟩)

/-- ConnAead.getPayloadSizeMask (part_001 lines 16-18): 0x3FFF. -/
def getPayloadSizeMask : Nat := 0x3FFF

/-- The chunk loop of ConnAead.Pack (part_001 lines 96-145), fuelled by the
chunk counter.  Faithful to the source: payload_len is capped at the mask,
the two header bytes are byte(payload_len>>8) and byte(payload_len), header
and payload are encrypted as two AEAD messages, and - exactly as in the
source - the payload is taken as packet_data[:payload_len] on every
iteration while only packet_len is decremented (packet_data is never
advanced). -/
def packChunks : Nat → CipherState → List Nat → Nat → List (List Nat) × CipherState
  | 0, st, _, _ => ([], st)
  | k + 1, st, packet_data, packet_len =>
    let payload_len := if packet_len > getPayloadSizeMask then getPayloadSizeMask else packet_len
    let header := [(payload_len >>> 8) % 256, payload_len % 256]
    let hp := Encrypt st header
    let payload := packet_data.take payload_len
    let pp := Encrypt hp.2 payload
    let rest := packChunks k pp.2 packet_data (packet_len - payload_len)
    ((hp.1 ++ pp.1) :: rest.1, rest.2)

/-- ConnAead.Pack (part_001 lines 92-148).  chunk_num is
math.Ceil(packet_len / 0x3FFF), exact for the sizes at issue; the result is
the list of emitted chunks (each written to dataBuffer as one
header-ciphertext immediately followed by one payload-ciphertext) together
with the final cipher state. -/
def ConnAead.Pack (st : CipherState) (packet_data : List Nat) : List (List Nat) × CipherState :=
  let chunk_num := (packet_data.length + (getPayloadSizeMask - 1)) / getPayloadSizeMask
  packChunks chunk_num st packet_data packet_data.length

/-- The payload-size computation of ConnAead.UnPack (part_001 line 174):
int(header[0])<<8 + int(header[1]) & this.getPayloadSizeMask().
In Go, the bitwise AND binds tighter than +, so this parses as
(h0 << 8) + (h1 & 0x3FFF). -/
def payloadSizeFromHeader (h0 h1 : Nat) : Nat :=
  (h0 <<< 8) + (h1 &&& getPayloadSizeMask)

/-- ConnAead.UnPack (part_001 lines 150-211) acting on the byte stream input:
read exactly 2+Overhead bytes (none models an io.ReadFull failure), decrypt
them to the two header bytes, compute payload_size, read exactly
payload_size+Overhead bytes, decrypt, and return the plaintext appended to
the data buffer together with the unconsumed stream and cipher state. -/
def ConnAead.UnPack (st : CipherState) (input : List Nat) : Option (List Nat × List Nat × CipherState) :=
  if input.length < 2 + tagOverhead then none
  else
    match Decrypt st (input.take (2 + tagOverhead)) with
    | (none, _) => none
    | (some hdr, st1) =>
      match hdr with
      | h0 :: h1 :: _ =>
        if (input.drop (2 + tagOverhead)).length < payloadSizeFromHeader h0 h1 + tagOverhead then
          none
        else
          match Decrypt st1
              ((input.drop (2 + tagOverhead)).take (payloadSizeFromHeader h0 h1 + tagOverhead)) with
          | (none, _) => none
          | (some pt, st2) =>
            some (pt.take (payloadSizeFromHeader h0 h1),
              (input.drop (2 + tagOverhead)).drop (payloadSizeFromHeader h0 h1 + tagOverhead), st2)
      | _ => none

/-- Applying ConnAead.UnPack once per chunk, k times, accumulating the
decrypted payloads in the connection data buffer. -/
def unPackAll : Nat → CipherState → List Nat → List Nat → Option (List Nat × List Nat × CipherState)
  | 0, st, input, buf => some (buf, input, st)
  | k + 1, st, input, buf =>
    match ConnAead.UnPack st input with
    | none => none
    | some (pt, rest, st1) => unPackAll k st1 rest (buf ++ pt)

/-! ## Request decoding: getRequest (part_000) -/

/-- Decimal digit list of a natural number (most significant first),
structurally fuelled so that it evaluates by kernel reduction. -/
def decDigitsAux : Nat → Nat → List Nat
  | 0, _ => []
  | fuel + 1, n => if n < 10 then [n] else decDigitsAux fuel (n / 10) ++ [n % 10]

/-- strconv.Itoa: the decimal rendering of n as ASCII bytes. -/
def natToDecBytes (n : Nat) : List Nat :=
  (decDigitsAux (n + 1) n).map (fun d => d + 48)

/-- net.JoinHostPort from the Go standard library: if the host contains a
colon (0x3A), the host is wrapped in square brackets. -/
def joinHostPort (host : List Nat) (port : Nat) : List Nat :=
  if 58 ∈ host then 91 :: (host ++ 93 :: 58 :: natToDecBytes port)
  else host ++ 58 :: natToDecBytes port

/-- binary.BigEndian.Uint16 of (the first two bytes of) a byte list. -/
def be16 : List Nat → Nat
  | b0 :: b1 :: _ => (b0 <<< 8) ||| b1
  | _ => 0

/-- Concatenate byte-string groups with a single separator byte. -/
def joinSep (sep : Nat) : List (List Nat) → List Nat
  | [] => []
  | [g] => g
  | g :: gs => g ++ sep :: joinSep sep gs

/-- net.IP.String on a 4-byte address: dotted decimal. -/
def ipv4String (bs : List Nat) : List Nat :=
  joinSep 46 (bs.map natToDecBytes)

/-- Lower-case hex digit list of a natural number, fuelled. -/
def hexDigitsAux : Nat → Nat → List Nat
  | 0, _ => []
  | fuel + 1, n =>
    if n < 16 then [if n < 10 then 48 + n else 87 + n]
    else hexDigitsAux fuel (n / 16) ++ [if n % 16 < 10 then 48 + n % 16 else 87 + n % 16]

/-- The 16 address bytes grouped into eight big-endian 16-bit groups. -/
def ipv6Groups : List Nat → List Nat
  | b0 :: b1 :: rest => ((b0 <<< 8) ||| b1) :: ipv6Groups rest
  | _ => []

/-- Modelled from the spec: section 4.3 renders an IPv6 address in numeric
colon form (the exact stdlib zero-run compression of net.IP.String is an
external detail no claim depends on); here: eight lower-case hex groups
joined by colons. -/
def ipv6String (bs : List Nat) : List Nat :=
  joinSep 58 ((ipv6Groups bs).map (fun g => hexDigitsAux (g + 1) g))

/-- io.ReadFull over a segmented connection: the connection is a list of
segments (the byte runs successive transport reads deliver), and ReadFull
keeps reading across segment boundaries until exactly k bytes are obtained,
failing if the stream ends first.  Fuelled structurally (k + number of
segments suffices) so that it evaluates by kernel reduction. -/
def readFullAux : Nat → List (List Nat) → Nat → Option (List Nat × List (List Nat))
  | _, segs, 0 => some ([], segs)
  | 0, _, _ + 1 => none
  | _ + 1, [], _ + 1 => none
  | fuel + 1, [] :: rest, k + 1 => readFullAux fuel rest (k + 1)
  | fuel + 1, (b :: s) :: rest, k + 1 =>
    match readFullAux fuel (s :: rest) k with
    | some (bs, segs1) => some (b :: bs, segs1)
    | none => none

/-- io.ReadFull of exactly k bytes from a segmented connection. -/
def readFull (segs : List (List Nat)) (k : Nat) : Option (List Nat × List (List Nat)) :=
  readFullAux (k + segs.length) segs k

/-- The io.ReadFull-based getRequest (part_000 lines 509-565): read one
address-type byte; switch on its low four bits (IPv4=1, IPv6=4, Domain=3,
anything else is an unsupported-address-type error); for Domain read the
one-byte length; read the remaining address-plus-port bytes; build
host:port via net.JoinHostPort with the big-endian port in decimal. -/
def getRequest_v2 (segs : List (List Nat)) : Option (List Nat) :=
  match readFull segs 1 with
  | none => none
  | some (t, c1) =>
    match t with
    | [addrType] =>
      if addrType &&& 15 = 1 then
        match readFull c1 (4 + 2) with
        | none => none
        | some (r, _) => some (joinHostPort (ipv4String (r.take 4)) (be16 (r.drop 4)))
      else if addrType &&& 15 = 4 then
        match readFull c1 (16 + 2) with
        | none => none
        | some (r, _) => some (joinHostPort (ipv6String (r.take 16)) (be16 (r.drop 16)))
      else if addrType &&& 15 = 3 then
        match readFull c1 1 with
        | none => none
        | some (t2, c2) =>
          match t2 with
          | [dmLen] =>
            match readFull c2 (dmLen + 2) with
            | none => none
            | some (r, _) => some (joinHostPort (r.take dmLen) (be16 (r.drop dmLen)))
          | _ => none
      else none
    | _ => none

/-- if k is at most the length of the stream, return the next k bytes. -/
def readFullF (s : List Nat) (k : Nat) : Option (List Nat × List Nat) :=
  if k ≤ s.length then some (s.take k, s.drop k) else none

/-- getRequest_v2 re-expressed over the flattened byte stream (the
single-read delivery); used to state split-insensitivity. -/
def getRequestF (s : List Nat) : Option (List Nat) :=
  match readFullF s 1 with
  | none => none
  | some (t, c1) =>
    match t with
    | [addrType] =>
      if addrType &&& 15 = 1 then
        match readFullF c1 (4 + 2) with
        | none => none
        | some (r, _) => some (joinHostPort (ipv4String (r.take 4)) (be16 (r.drop 4)))
      else if addrType &&& 15 = 4 then
        match readFullF c1 (16 + 2) with
        | none => none
        | some (r, _) => some (joinHostPort (ipv6String (r.take 16)) (be16 (r.drop 16)))
      else if addrType &&& 15 = 3 then
        match readFullF c1 1 with
        | none => none
        | some (t2, c2) =>
          match t2 with
          | [dmLen] =>
            match readFullF c2 (dmLen + 2) with
            | none => none
            | some (r, _) => some (joinHostPort (r.take dmLen) (be16 (r.drop dmLen)))
          | _ => none
      else none
    | _ => none

/-- One conn.Read into a 2048-byte buffer: returns the next segment (or its
first 2048 bytes), failing at end of stream. -/
def read2048 : List (List Nat) → Option (List Nat × List (List Nat))
  | [] => none
  | s :: rest =>
    if s.length ≤ 2048 then some (s, rest) else some (s.take 2048, s.take 2048 :: rest)

/-- Modelled from the spec: the stream-cipher UnPack used by the first
getRequest variant is not under src/; per section 4.1 the stream-variant
decrypt is a transparent same-length byte transform.  Instantiated with the
zero keystream, under which the transform is the identity on bytes. -/
def streamUnPackZero (bs : List Nat) : List Nat :=
  bs.map (fun b => b ^^^ 0)

/-- The single-read getRequest (part_000 lines 44-112): one conn.Read into a
2048-byte buffer, unpack what arrived, then parse the decoded bytes in
place.  Indexing or slicing past the decoded data (data[idDmLen], slices up
to reqEnd) is a Go runtime panic, modelled as none; the routine never reads
from the connection again. -/
def getRequest_v1 (unpack : List Nat → List Nat) (segs : List (List Nat)) : Option (List Nat) :=
  match read2048 segs with
  | none => none
  | some (bufn, _) =>
    let data := unpack bufn
    match data with
    | [] => none
    | addrType :: _ =>
      if addrType &&& 15 = 1 then
        if data.length < 7 then none
        else some (joinHostPort (ipv4String ((data.drop 1).take 4)) (be16 (data.drop 5)))
      else if addrType &&& 15 = 4 then
        if data.length < 19 then none
        else some (joinHostPort (ipv6String ((data.drop 1).take 16)) (be16 (data.drop 17)))
      else if addrType &&& 15 = 3 then
        match data.drop 1 with
        | [] => none
        | dmLen :: _ =>
          if data.length < 2 + dmLen + 2 then none
          else some (joinHostPort ((data.drop 2).take dmLen) (be16 (data.drop (2 + dmLen))))
      else none

/-! ## Connection handler: handleConnection (part_000) -/

/-- The environment one handleConnection run observes: the outcome of
getRequest (none is a decode error) and whether net.Dial succeeds. -/
structure HandlerEnv where
  request : Option (List Nat)
  dialOk : Bool

/-- Observable effects of one handleConnection run: the closed flag, whether
net.Dial was called, whether the deferred cleanups closed the client and
remote sockets, the net change to connCnt, and how many times connCnt was
incremented and decremented. -/
structure HState where
  closed : Bool
  dialed : Bool
  connClosed : Bool
  remoteClosed : Bool
  cnt : Int
  incs : Nat
  decs : Nat
deriving DecidableEq

/-- State after the connCnt++ on entry. -/
def hEntry : HState :=
  { closed := false, dialed := false, connClosed := false, remoteClosed := false
    cnt := 1, incs := 1, decs := 0 }

/-- The deferred cleanup (part_000 lines 590-598): connCnt--, then close the
client connection only if the closed flag is still false. -/
def deferredCleanup (s : HState) : HState :=
  let s1 : HState := { s with cnt := s.cnt - 1, decs := s.decs + 1 }
  if s1.closed then s1 else { s1 with connClosed := true }

/-- The deferred remote close (part_000 lines 634-638), registered only
after a successful dial: close the remote socket if closed is false. -/
def deferredRemoteClose (s : HState) : HState :=
  if s.closed then s else { s with remoteClosed := true }

/-- handleConnection (part_000 lines 572-646, identical control flow at lines
119-187): increment connCnt; on getRequest error set closed=true and
return; on a NUL byte in the host set closed=true and return; otherwise
dial; on dial error return with closed still false; on success run the two
relay directions and set closed=true (the pipes close the sockets
themselves).  The deferred cleanup runs on every path. -/
def handleConnection (env : HandlerEnv) : HState :=
  let s0 := hEntry
  match env.request with
  | none => deferredCleanup { s0 with closed := true }
  | some host =>
    if 0 ∈ host then deferredCleanup { s0 with closed := true }
    else
      let s1 := { s0 with dialed := true }
      if env.dialOk then
        deferredCleanup (deferredRemoteClose { s1 with closed := true })
      else
        deferredCleanup s1

/-! ## Password manager and reload (part_000) -/

/-- A PortListener record: the password and the listening socket (by id). -/
structure PortListener where
  password : String
  listener : Nat
deriving DecidableEq

/-- A listening socket: identity, bound port, and whether it is open. -/
structure Sock where
  id : Nat
  port : String
  isOpen : Bool
deriving DecidableEq

/-- The process state the password-manager claims speak about: the
portListener registry, every socket ever bound (open or closed), and the
next fresh socket id. -/
structure ServerState where
  portListener : List (String × PortListener)
  socks : List Sock
  nextId : Nat
deriving DecidableEq

/-- Registry lookup (PasswdManager.get). -/
def pmGet : List (String × PortListener) → String → Option PortListener
  | [], _ => none
  | (p, pl) :: rest, port => if p = port then some pl else pmGet rest port

/-- Registry upsert (PasswdManager.add; Go map assignment). -/
def pmAdd : List (String × PortListener) → String → PortListener → List (String × PortListener)
  | [], port, pl => [(port, pl)]
  | (p, q) :: rest, port, pl =>
    if p = port then (port, pl) :: rest else (p, q) :: pmAdd rest port pl

/-- Registry removal (Go delete; keys are unique in a Go map). -/
def pmDelete : List (String × PortListener) → String → List (String × PortListener)
  | [], _ => []
  | (p, q) :: rest, port => if p = port then rest else (p, q) :: pmDelete rest port

/-- Close the socket with the given id. -/
def closeListener (s : ServerState) (i : Nat) : ServerState :=
  { s with socks := s.socks.map (fun sk => if sk.id = i then { sk with isOpen := false } else sk) }

/-- The part of run (part_000 lines 782-791) the registry claims depend on:
net.Listen binds a fresh open socket on the port, then passwdManager.add
registers it with the password. -/
def runStart (s : ServerState) (port password : String) : ServerState :=
  { portListener := pmAdd s.portListener port ⟨password, s.nextId⟩
    socks := s.socks ++ [⟨s.nextId, port, true⟩]
    nextId := s.nextId + 1 }

/-- PasswdManager.updatePortPasswd (part_000 lines 715-734): look the port
up; if absent, just start a new server loop; if present with the same
password, return (no-op); otherwise close the old listener and start a new
server loop (whose startup re-registers the port). -/
def updatePortPasswd (s : ServerState) (port password : String) : ServerState :=
  match pmGet s.portListener port with
  | none => runStart s port password
  | some pl =>
    if pl.password = password then s
    else runStart (closeListener s pl.listener) port password

/-- PasswdManager.del (part_000 lines 690-709) with the udp flag false: look
the port up; if absent return; otherwise close its listener and delete the
registry entry. -/
def pmDel (s : ServerState) (port : String) : ServerState :=
  match pmGet s.portListener port with
  | none => s
  | some pl =>
    let s1 := closeListener s pl.listener
    { s1 with portListener := pmDelete s1.portListener port }

/-- updatePasswd (part_000 lines 738-766) after a successful config parse:
for every port of the new configuration call updatePortPasswd (deleting the
port from the old snapshot as it goes), then del every port left over in
the old snapshot.  Configurations are port/password pair lists. -/
def updatePasswd (s : ServerState) (oldCfg newCfg : List (String × String)) : ServerState :=
  let s1 := newCfg.foldl (fun st pc => updatePortPasswd st pc.1 pc.2) s
  let leftover := oldCfg.filter (fun pc => !(newCfg.any (fun qc => qc.1 == pc.1)))
  leftover.foldl (fun st pc => pmDel st pc.1) s1

/-- The ports of a configuration snapshot (keys of PortPassword). -/
def cfgKeys (cfg : List (String × String)) : List String := cfg.map Prod.fst

/-- The ports registered in a portListener registry. -/
def regKeys (m : List (String × PortListener)) : List String := m.map Prod.fst

/-- Every socket bound with this id is closed. -/
def sockClosed (s : ServerState) (i : Nat) : Prop :=
  ∀ sk ∈ s.socks, sk.id = i → sk.isOpen = false

/-! ## AESCTR.new (src/shadowsocks/crypto/stream/aes-ctr.go) -/

/-- A constructed AES block cipher (crypto/aes). -/
structure AESBlock where
  key : List Nat
deriving DecidableEq

/-- crypto/aes NewCipher: succeeds exactly on 16-, 24- or 32-byte keys,
otherwise returns KeySizeError (carrying the offending length). -/
def aesNewCipher (key : List Nat) : Except Nat AESBlock :=
  if key.length = 16 ∨ key.length = 24 ∨ key.length = 32 then .ok ⟨key⟩
  else .error key.length

/-- A constructed CTR stream (crypto/cipher). -/
structure CTRStream where
  block : AESBlock
  iv : List Nat
deriving DecidableEq

/-- crypto/cipher NewCTR: panics unless the IV length equals the AES block
size of 16 bytes (none models the panic). -/
def newCTR (b : AESBlock) (iv : List Nat) : Option CTRStream :=
  if iv.length = 16 then some ⟨b, iv⟩ else none

/-- The possible outcomes of AESCTR.new: a Go panic, or a returned triple
(stream, AEAD, error) - the error is the key length carried by
KeySizeError. -/
inductive AESCTRNewResult where
  | panicked : AESCTRNewResult
  | returned : Option CTRStream → Option Unit → Option Nat → AESCTRNewResult
deriving DecidableEq

/-- AESCTR.new (aes-ctr.go lines 12-18): build the AES block cipher,
propagating its error with nil stream and nil AEAD; otherwise return
cipher.NewCTR(block, iv) with nil AEAD and nil error (NewCTR panics on a
wrong-length IV). -/
def AESCTR.new (key iv : List Nat) : AESCTRNewResult :=
  match aesNewCipher key with
  | .error e => .returned none none (some e)
  | .ok block =>
    match newCTR block iv with
    | none => .panicked
    | some st => .returned (some st) none none

/-! ## Theorems -/

/-- readFullAux returns exactly the next k bytes of the concatenated stream
(and the leftover segments concatenate to the rest), failing exactly when
fewer than k bytes remain, provided the fuel is at least k plus the number
of segments. -/
theorem readFullAux_correct :
    ∀ (fuel : Nat) (segs : List (List Nat)) (k : Nat), k + segs.length ≤ fuel →
    match readFullAux fuel segs k with
    | none => segs.flatten.length < k
    | some (bs, segs1) =>
        bs = segs.flatten.take k ∧ segs1.flatten = segs.flatten.drop k ∧
        k ≤ segs.flatten.length := by
  intro fuel
  induction fuel with
  | zero =>
    intro segs k h
    have hk : k = 0 := by omega
    subst hk
    simp [readFullAux]
  | succ n ih =>
    intro segs k h
    match segs, k with
    | segs, 0 => simp [readFullAux]
    | [], k + 1 => simp [readFullAux]
    | [] :: rest, k + 1 =>
      have h2 : (k + 1) + rest.length ≤ n := by simp at h; omega
      have := ih rest (k + 1) h2
      simpa [readFullAux] using this
    | (b :: s) :: rest, k + 1 =>
      have H := ih (s :: rest) k (by simp at h ⊢; omega)
      simp only [readFullAux]
      rcases hr : readFullAux n (s :: rest) k with _ | ⟨bs, segs1⟩
      · rw [hr] at H
        simp at H ⊢
        omega
      · rw [hr] at H
        obtain ⟨h1, h2', h3⟩ := H
        refine ⟨?_, ?_, ?_⟩
        · simp [h1]
        · simpa using h2'
        · simp at h3 ⊢; omega

/-- readFull reads exactly the next k bytes of the concatenated stream. -/
theorem readFull_correct (segs : List (List Nat)) (k : Nat) :
    match readFull segs k with
    | none => segs.flatten.length < k
    | some (bs, segs1) =>
        bs = segs.flatten.take k ∧ segs1.flatten = segs.flatten.drop k ∧
        k ≤ segs.flatten.length :=
  readFullAux_correct (k + segs.length) segs k (Nat.le_refl _)

/-- readFullF fails when the stream is too short. -/
theorem readFullF_none {s : List Nat} {k : Nat} (h : s.length < k) : readFullF s k = none := by
  unfold readFullF
  rw [if_neg (by omega)]

/-- readFullF succeeds on a long-enough stream. -/
theorem readFullF_some {s : List Nat} {k : Nat} (h : k ≤ s.length) :
    readFullF s k = some (s.take k, s.drop k) := by
  unfold readFullF
  rw [if_pos h]

/-- One segmented read followed by a continuation that uses only the bytes
read agrees with the flat-stream read. -/
theorem readFull_tail_eq (c : List (List Nat)) (tl : List Nat) (hc : c.flatten = tl) (k : Nat)
    (f : List Nat → Option (List Nat)) :
    (match readFull c k with
     | none => none
     | some (r, _) => f r) =
    (match readFullF tl k with
     | none => none
     | some (r, _) => f r) := by
  have H := readFull_correct c k
  rcases hr : readFull c k with _ | ⟨r, c2⟩
  · rw [hr, hc] at H
    rw [readFullF_none H]
  · rw [hr, hc] at H
    obtain ⟨h1, _, h3⟩ := H
    rw [readFullF_some h3, h1]

/-- The io.ReadFull-based getRequest depends only on the concatenation of
the delivered segments: its result is the flat-stream decode. -/
theorem getRequest_v2_flat (segs : List (List Nat)) :
    getRequest_v2 segs = getRequestF segs.flatten := by
  unfold getRequest_v2 getRequestF
  have H := readFull_correct segs 1
  rcases hr : readFull segs 1 with _ | ⟨t, c1⟩
  · rw [hr] at H
    rw [readFullF_none H]
  · rw [hr] at H
    obtain ⟨ht, hc1, hlen⟩ := H
    rw [readFullF_some hlen]
    obtain ⟨x, tl, hfl⟩ : ∃ x tl, segs.flatten = x :: tl := by
      cases hfl : segs.flatten with
      | nil => rw [hfl] at hlen; simp at hlen
      | cons a b => exact ⟨a, b, rfl⟩
    rw [hfl] at ht hc1 ⊢
    simp only [List.take_succ_cons, List.take_zero, List.drop_succ_cons, List.drop_zero] at ht hc1 ⊢
    subst ht
    by_cases h1 : x &&& 15 = 1
    · simp only [if_pos h1]
      exact readFull_tail_eq c1 tl hc1 6 _
    · simp only [if_neg h1]
      by_cases h4 : x &&& 15 = 4
      · simp only [if_pos h4]
        exact readFull_tail_eq c1 tl hc1 18 _
      · simp only [if_neg h4]
        by_cases h3 : x &&& 15 = 3
        · simp only [if_pos h3]
          have H2 := readFull_correct c1 1
          rcases hr2 : readFull c1 1 with _ | ⟨t2, c2⟩
          · rw [hr2, hc1] at H2
            rw [readFullF_none H2]
          · rw [hr2, hc1] at H2
            obtain ⟨ht2, hc2, hlen2⟩ := H2
            rw [readFullF_some hlen2]
            obtain ⟨y, tl2, hfl2⟩ : ∃ y tl2, tl = y :: tl2 := by
              cases hfl2 : tl with
              | nil => rw [hfl2] at hlen2; simp at hlen2
              | cons a b => exact ⟨a, b, rfl⟩
            rw [hfl2] at ht2 hc2 ⊢
            simp only [List.take_succ_cons, List.take_zero, List.drop_succ_cons,
              List.drop_zero] at ht2 hc2 ⊢
            subst ht2
            exact readFull_tail_eq c2 tl2 hc2 (y + 2) _
        · simp only [if_neg h3]

/-- Claim C4 counterexample: the single-read getRequest (the first variant
in part_000) does not tolerate splitting.  Delivered whole, a domain
request decodes to example.com:443; delivered with the address-type byte in
a first read of its own, the routine indexes past the received data (a Go
panic) instead of reading further, so the two deliveries disagree. -/
theorem c4_counterexample :
    getRequest_v1 streamUnPackZero
        [[3], [11] ++ [101, 120, 97, 109, 112, 108, 101, 46, 99, 111, 109] ++ [1, 187]] = none ∧
    getRequest_v1 streamUnPackZero
        [[3, 11] ++ [101, 120, 97, 109, 112, 108, 101, 46, 99, 111, 109] ++ [1, 187]] =
      some [101, 120, 97, 109, 112, 108, 101, 46, 99, 111, 109, 58, 52, 52, 51] ∧
    (none : Option (List Nat)) ≠
      some [101, 120, 97, 109, 112, 108, 101, 46, 99, 111, 109, 58, 52, 52, 51] := by
  decide

/-- Claim C4 as amended: the io.ReadFull-based getRequest (the second
variant in part_000) is split-insensitive - for every way the request
bytes are split across successive reads it returns exactly what it returns
when the entire request arrives in a single read. -/
theorem c4_amended (segs : List (List Nat)) :
    getRequest_v2 segs = getRequest_v2 [segs.flatten] := by
  rw [getRequest_v2_flat segs, getRequest_v2_flat [segs.flatten]]
  simp

/-- getRequestF on a well-formed domain request without a colon in the
domain yields the domain, a colon and the decimal port. -/
theorem getRequestF_domain (a : Nat) (dom : List Nat) (p0 p1 : Nat) (ha : a &&& 15 = 3)
    (hcolon : (58 : Nat) ∉ dom) :
    getRequestF (a :: dom.length :: (dom ++ [p0, p1])) =
      some (dom ++ 58 :: natToDecBytes ((p0 <<< 8) ||| p1)) := by
  unfold getRequestF
  rw [readFullF_some (by simp)]
  simp only [List.take_succ_cons, List.take_zero, List.drop_succ_cons, List.drop_zero]
  rw [ha]
  norm_num
  rw [readFullF_some (by simp)]
  simp only [List.take_succ_cons, List.take_zero, List.drop_succ_cons, List.drop_zero]
  rw [readFullF_some (by simp)]
  rw [List.take_of_length_le (by simp), List.drop_eq_nil_of_le (by simp)]
  show some (joinHostPort ((dom ++ [p0, p1]).take dom.length)
      (be16 ((dom ++ [p0, p1]).drop dom.length))) = _
  rw [List.take_left, List.drop_left]
  simp [joinHostPort, be16, hcolon]

/-- Claim C5 counterexample: the domain bytes are not always carried over
verbatim - for the 3-byte domain a:b with port 443 the decoder yields
[a:b]:443 (net.JoinHostPort brackets any host containing a colon), not
a:b:443 as the claim states. -/
theorem c5_counterexample :
    getRequest_v2 [[3, 3, 97, 58, 98, 1, 187]] = some [91, 97, 58, 98, 93, 58, 52, 52, 51] ∧
    some [91, 97, 58, 98, 93, 58, 52, 52, 51] ≠ some [97, 58, 98, 58, 52, 52, 51] := by
  decide

/-- Claim C5 as amended: for every well-formed domain request whose
address-type byte has low 4 bits 3 and whose domain contains no colon
byte, getRequest returns the domain verbatim, a colon, and the big-endian
port in decimal. -/
theorem c5_amended (a : Nat) (dom : List Nat) (p0 p1 : Nat) (ha : a &&& 15 = 3)
    (hlen : dom.length ≤ 255) (hcolon : (58 : Nat) ∉ dom) :
    getRequest_v2 [[a, dom.length] ++ dom ++ [p0, p1]] =
      some (dom ++ 58 :: natToDecBytes ((p0 <<< 8) ||| p1)) := by
  rw [getRequest_v2_flat]
  have hfl : ([[a, dom.length] ++ dom ++ [p0, p1]] : List (List Nat)).flatten
      = a :: dom.length :: (dom ++ [p0, p1]) := by simp
  rw [hfl]
  exact getRequestF_domain a dom p0 p1 ha hcolon

/-- Claim C5 witness: the amended statement at the claim's own scenario -
domain example.com (11 bytes), addrType 3, port 443 - yields
example.com:443. -/
theorem c5_witness :
    getRequest_v2 [[3, 11] ++ [101, 120, 97, 109, 112, 108, 101, 46, 99, 111, 109] ++ [1, 187]] =
      some [101, 120, 97, 109, 112, 108, 101, 46, 99, 111, 109, 58, 52, 52, 51] :=
  (c5_amended 3 [101, 120, 97, 109, 112, 108, 101, 46, 99, 111, 109] 1 187
    (by decide) (by decide) (by decide)).trans (by decide)

/-- Claim C2: the payload size ConnAead.UnPack derives from a decrypted
header is NOT the claimed ((h0 << 8) + h1) & 0x3FFF.  Go precedence makes
the mask apply to h1 alone, so for header bytes (0xFF, 0x00) the size used
is 65280, which exceeds the 14-bit cap of 16383 and differs from the
claimed masked value 16128. -/
theorem c2_mask_not_applied :
    payloadSizeFromHeader 255 0 = 65280 ∧
    ¬ payloadSizeFromHeader 255 0 ≤ getPayloadSizeMask ∧
    payloadSizeFromHeader 255 0 ≠ ((255 <<< 8) + 0) &&& getPayloadSizeMask := by
  decide

/-- Claim C9: every handleConnection run increments connCnt exactly once on
entry and decrements it exactly once in the deferred cleanup, on every exit
path (decode failure, NUL-host rejection, dial failure, relay completion),
so the net change to connCnt is zero. -/
theorem c9_connCnt_balanced (env : HandlerEnv) :
    (handleConnection env).incs = 1 ∧ (handleConnection env).decs = 1 ∧
    (handleConnection env).cnt = 0 := by
  obtain ⟨req, dial⟩ := env
  cases req with
  | none => simp [handleConnection, deferredCleanup, hEntry]
  | some host =>
    by_cases h : (0 : Nat) ∈ host
    · simp [handleConnection, deferredCleanup, hEntry, h]
    · cases dial <;>
        simp [handleConnection, deferredCleanup, deferredRemoteClose, hEntry, h]

/-- Claim C3 evaluated at a failing request: on a getRequest failure (here
an unsupported address type 2) handleConnection indeed never dials, but it
also does not close the client connection: it sets closed=true before
returning, so the deferred cleanup skips conn.Close(). -/
theorem c3_request_failure_no_dial_conn_left_open :
    getRequest_v2 [[2]] = none ∧
    (handleConnection { request := getRequest_v2 [[2]], dialOk := true }).dialed = false ∧
    (handleConnection { request := getRequest_v2 [[2]], dialOk := true }).connClosed = false := by
  decide

/-- Claim C6 evaluated at a NUL-carrying host: for a domain request whose
decoded host contains a NUL byte, handleConnection never dials, but it does
not close the client connection either (closed=true makes the deferred
cleanup skip conn.Close()). -/
theorem c6_nul_host_no_dial_conn_left_open :
    getRequest_v2 [[3, 3, 97, 0, 98, 1, 187]] = some [97, 0, 98, 58, 52, 52, 51] ∧
    (0 : Nat) ∈ [97, 0, 98, 58, 52, 52, 51] ∧
    (handleConnection { request := some [97, 0, 98, 58, 52, 52, 51], dialOk := true }).dialed = false ∧
    (handleConnection { request := some [97, 0, 98, 58, 52, 52, 51], dialOk := true }).connClosed = false := by
  decide

/-- Claim C10 counterexample: with a key of the valid length 16 but an
empty IV, AESCTR.new does not return a non-nil stream with nil error - it
panics inside cipher.NewCTR, so the claimed equivalence fails at a valid
key length. -/
theorem c10_counterexample :
    (List.replicate 16 (0 : Nat)).length = 16 ∧
    AESCTR.new (List.replicate 16 0) [] = .panicked ∧
    ∀ st a e, AESCTRNewResult.panicked ≠ .returned st a e := by
  refine ⟨by decide, by decide, ?_⟩
  intro st a e h
  exact AESCTRNewResult.noConfusion h

/-- Claim C10 as amended: provided the IV has the AES block size of 16
bytes, AESCTR.new returns a non-nil CTR stream, nil AEAD and nil error
exactly when the key length is 16, 24 or 32; for every other key length it
returns nil stream, nil AEAD and a non-nil KeySizeError regardless of the
IV. -/
theorem c10_amended (key iv : List Nat) :
    ((key.length = 16 ∨ key.length = 24 ∨ key.length = 32) → iv.length = 16 →
      AESCTR.new key iv = .returned (some ⟨⟨key⟩, iv⟩) none none) ∧
    (¬(key.length = 16 ∨ key.length = 24 ∨ key.length = 32) →
      AESCTR.new key iv = .returned none none (some key.length)) := by
  constructor
  · intro hk hiv
    simp [AESCTR.new, aesNewCipher, newCTR, hk, hiv]
  · intro hk
    simp [AESCTR.new, aesNewCipher, hk]

/-- Claim C10 witness: the amended statement at concrete inputs - a 24-byte
key with a 16-byte IV succeeds, a 3-byte key fails with KeySizeError. -/
theorem c10_witness :
    AESCTR.new (List.replicate 24 1) (List.replicate 16 2) =
      .returned (some ⟨⟨List.replicate 24 1⟩, List.replicate 16 2⟩) none none ∧
    AESCTR.new [1, 2, 3] [] = .returned none none (some 3) :=
  ⟨(c10_amended (List.replicate 24 1) (List.replicate 16 2)).1 (by decide) (by decide),
   (c10_amended [1, 2, 3] []).2 (by decide)⟩

/-- updatePortPasswd with the already-registered password is the identity on
the whole server state. -/
theorem updatePortPasswd_same (s : ServerState) (port : String) (pl : PortListener)
    (h : pmGet s.portListener port = some pl) :
    updatePortPasswd s port pl.password = s := by
  unfold updatePortPasswd
  rw [h]
  simp

/-- updatePortPasswd with a different password: the exact resulting state -
the registered listener is closed, a fresh open socket is appended, and the
registry entry is replaced. -/
theorem updatePortPasswd_swap_state (s : ServerState) (port pw : String) (pl : PortListener)
    (h : pmGet s.portListener port = some pl) (hne : pl.password ≠ pw) :
    updatePortPasswd s port pw =
      { portListener := pmAdd s.portListener port ⟨pw, s.nextId⟩
        socks := s.socks.map
          (fun sk => if sk.id = pl.listener then { sk with isOpen := false } else sk) ++
          [⟨s.nextId, port, true⟩]
        nextId := s.nextId + 1 } := by
  unfold updatePortPasswd
  rw [h]
  simp [hne, runStart, closeListener]

/-- updatePortPasswd with a different password leaves exactly one open
socket bound on the port and closes every socket with the old listener id. -/
theorem updatePortPasswd_swap_socks (s : ServerState) (port pw : String) (pl : PortListener)
    (h : pmGet s.portListener port = some pl) (hne : pl.password ≠ pw)
    (hopen : s.socks.filter (fun sk => sk.port == port && sk.isOpen) = [⟨pl.listener, port, true⟩])
    (hfresh : pl.listener ≠ s.nextId) :
    (updatePortPasswd s port pw).socks.filter (fun sk => sk.port == port && sk.isOpen) =
      [⟨s.nextId, port, true⟩] ∧
    ∀ sk ∈ (updatePortPasswd s port pw).socks, sk.id = pl.listener → sk.isOpen = false := by
  rw [updatePortPasswd_swap_state s port pw pl h hne]
  have hmem : ∀ sk ∈ s.socks, sk.port = port → sk.isOpen = true →
      sk = ⟨pl.listener, port, true⟩ := by
    intro sk hsk hp ho
    have : sk ∈ s.socks.filter (fun sk => sk.port == port && sk.isOpen) :=
      List.mem_filter.mpr ⟨hsk, by simp [hp, ho]⟩
    rw [hopen] at this
    simpa using this
  constructor
  · rw [List.filter_append]
    have h2 : (s.socks.map
        (fun sk => if sk.id = pl.listener then { sk with isOpen := false } else sk)).filter
        (fun sk => sk.port == port && sk.isOpen) = [] := by
      rw [List.filter_eq_nil_iff]
      intro sk' hsk'
      obtain ⟨sk, hsk, hmap⟩ := List.mem_map.mp hsk'
      by_cases hid : sk.id = pl.listener
      · rw [if_pos hid] at hmap
        subst hmap
        simp
      · rw [if_neg hid] at hmap
        subst hmap
        intro hcontra
        simp at hcontra
        exact hid (by rw [hmem sk hsk hcontra.1 hcontra.2])
    rw [h2]
    simp
  · intro sk hsk hid
    rcases List.mem_append.mp hsk with hl | hr
    · obtain ⟨sk0, hsk0, hmap⟩ := List.mem_map.mp hl
      by_cases hid0 : sk0.id = pl.listener
      · rw [if_pos hid0] at hmap
        subst hmap
        rfl
      · rw [if_neg hid0] at hmap
        subst hmap
        exact absurd hid hid0
    · simp at hr
      subst hr
      simp at hid
      exact absurd hid.symm hfresh

/-- Claim C7: updatePortPasswd with the password already recorded for the
port is a no-op on the entire state (no socket closed, no server loop
started, registry unchanged); with a different password the resulting state
closes exactly the old listener socket and binds exactly one fresh open
listener on the port. -/
theorem c7_hot_swap :
    (∀ (s : ServerState) (port : String) (pl : PortListener),
      pmGet s.portListener port = some pl →
      updatePortPasswd s port pl.password = s) ∧
    (∀ (s : ServerState) (port pw : String) (pl : PortListener),
      pmGet s.portListener port = some pl → pl.password ≠ pw →
      updatePortPasswd s port pw =
        { portListener := pmAdd s.portListener port ⟨pw, s.nextId⟩
          socks := s.socks.map
            (fun sk => if sk.id = pl.listener then { sk with isOpen := false } else sk) ++
            [⟨s.nextId, port, true⟩]
          nextId := s.nextId + 1 }) ∧
    (∀ (s : ServerState) (port pw : String) (pl : PortListener),
      pmGet s.portListener port = some pl → pl.password ≠ pw →
      s.socks.filter (fun sk => sk.port == port && sk.isOpen) = [⟨pl.listener, port, true⟩] →
      pl.listener ≠ s.nextId →
      (updatePortPasswd s port pw).socks.filter (fun sk => sk.port == port && sk.isOpen) =
        [⟨s.nextId, port, true⟩] ∧
      ∀ sk ∈ (updatePortPasswd s port pw).socks, sk.id = pl.listener → sk.isOpen = false) :=
  ⟨updatePortPasswd_same, updatePortPasswd_swap_state, updatePortPasswd_swap_socks⟩

/-- Claim C7 witness: on a one-port state, re-sending the same password
changes nothing, and a new password leaves exactly the fresh listener open
on the port. -/
theorem c7_witness :
    updatePortPasswd ⟨[("8388", ⟨"a", 0⟩)], [⟨0, "8388", true⟩], 1⟩ "8388" "a" =
      (⟨[("8388", ⟨"a", 0⟩)], [⟨0, "8388", true⟩], 1⟩ : ServerState) ∧
    (updatePortPasswd ⟨[("8388", ⟨"a", 0⟩)], [⟨0, "8388", true⟩], 1⟩ "8388" "b").socks.filter
      (fun sk => sk.port == "8388" && sk.isOpen) = [⟨1, "8388", true⟩] :=
  ⟨c7_hot_swap.1 ⟨[("8388", ⟨"a", 0⟩)], [⟨0, "8388", true⟩], 1⟩ "8388" ⟨"a", 0⟩ (by decide),
   (c7_hot_swap.2.2 ⟨[("8388", ⟨"a", 0⟩)], [⟨0, "8388", true⟩], 1⟩ "8388" "b" ⟨"a", 0⟩
      (by decide) (by decide) (by decide) (by decide)).1⟩

/-- pmGet misses every port absent from the registry keys. -/
theorem pmGet_eq_none_of_not_mem {m : List (String × PortListener)} {port : String}
    (h : port ∉ regKeys m) : pmGet m port = none := by
  induction m with
  | nil => rfl
  | cons hd tl ih =>
    obtain ⟨p, q⟩ := hd
    simp only [regKeys, List.map_cons, List.mem_cons, not_or] at h
    simp only [pmGet]
    rw [if_neg (fun hh => h.1 hh.symm)]
    exact ih (by simpa [regKeys] using h.2)

/-- pmAdd updates exactly its own key. -/
theorem pmGet_pmAdd (m : List (String × PortListener)) (port : String) (pl : PortListener)
    (q : String) :
    pmGet (pmAdd m port pl) q = if port = q then some pl else pmGet m q := by
  induction m with
  | nil => simp [pmAdd, pmGet]
  | cons hd tl ih =>
    obtain ⟨p, x⟩ := hd
    by_cases hp : p = port
    · subst hp
      simp only [pmAdd, eq_self_iff_true, if_true, pmGet]
      by_cases hq : p = q <;> simp [pmGet, hq]
    · simp only [pmAdd, if_neg hp, pmGet]
      by_cases hq : p = q
      · subst hq
        rw [if_pos rfl, if_neg (fun h => hp h.symm)]
        simp [pmGet]
      · rw [if_neg hq, ih]
        by_cases hpq : port = q
        · simp [hpq]
        · simp [pmGet, hpq, hq]

/-- pmDelete does not disturb other keys. -/
theorem pmGet_pmDelete_ne (m : List (String × PortListener)) (port q : String) (h : q ≠ port) :
    pmGet (pmDelete m port) q = pmGet m q := by
  induction m with
  | nil => rfl
  | cons hd tl ih =>
    obtain ⟨p, x⟩ := hd
    by_cases hp : p = port
    · subst hp
      simp only [pmDelete, eq_self_iff_true, if_true, pmGet]
      rw [if_neg (fun hh => h hh.symm)]
    · simp only [pmDelete, if_neg hp, pmGet]
      by_cases hq : p = q <;> simp [hq, ih]

/-- pmDelete removes at most elements, keeping key order. -/
theorem regKeys_pmDelete_sublist (m : List (String × PortListener)) (port : String) :
    (regKeys (pmDelete m port)).Sublist (regKeys m) := by
  induction m with
  | nil => simp [pmDelete, regKeys]
  | cons hd tl ih =>
    obtain ⟨p, x⟩ := hd
    by_cases hp : p = port
    · simp only [pmDelete, if_pos hp, regKeys, List.map_cons]
      exact List.sublist_cons_self _ _
    · simp only [pmDelete, if_neg hp, regKeys, List.map_cons]
      exact ih.cons₂ p

/-- On a registry with unique keys, pmDelete removes its key. -/
theorem pmGet_pmDelete_self (m : List (String × PortListener)) (port : String)
    (h : (regKeys m).Nodup) : pmGet (pmDelete m port) port = none := by
  induction m with
  | nil => rfl
  | cons hd tl ih =>
    obtain ⟨p, x⟩ := hd
    simp only [regKeys, List.map_cons, List.nodup_cons] at h
    by_cases hp : p = port
    · subst hp
      simp only [pmDelete, eq_self_iff_true, if_true]
      exact pmGet_eq_none_of_not_mem (by simpa [regKeys] using h.1)
    · simp only [pmDelete, if_neg hp, pmGet, h.2]
      exact ih h.2

/-- Key membership after pmAdd. -/
theorem regKeys_mem_pmAdd (m : List (String × PortListener)) (port : String) (pl : PortListener)
    (q : String) : q ∈ regKeys (pmAdd m port pl) ↔ q = port ∨ q ∈ regKeys m := by
  induction m with
  | nil => simp [pmAdd, regKeys, eq_comm]
  | cons hd tl ih =>
    obtain ⟨p, x⟩ := hd
    by_cases hp : p = port
    · subst hp
      simp [pmAdd, regKeys]
    · simp only [pmAdd, if_neg hp, regKeys, List.map_cons, List.mem_cons]
      rw [show List.map Prod.fst (pmAdd tl port pl) = regKeys (pmAdd tl port pl) from rfl, ih]
      simp only [regKeys]
      tauto

/-- pmAdd preserves key uniqueness. -/
theorem regKeys_pmAdd_nodup (m : List (String × PortListener)) (port : String) (pl : PortListener)
    (h : (regKeys m).Nodup) : (regKeys (pmAdd m port pl)).Nodup := by
  induction m with
  | nil => simp [pmAdd, regKeys]
  | cons hd tl ih =>
    obtain ⟨p, x⟩ := hd
    simp only [regKeys, List.map_cons, List.nodup_cons] at h
    by_cases hp : p = port
    · subst hp
      simp only [pmAdd, eq_self_iff_true, if_true, regKeys, List.map_cons, List.nodup_cons]
      exact ⟨by simpa [regKeys] using h.1, h.2⟩
    · simp only [pmAdd, if_neg hp, regKeys, List.map_cons, List.nodup_cons]
      constructor
      · intro hmem
        rw [show List.map Prod.fst (pmAdd tl port pl) = regKeys (pmAdd tl port pl) from rfl,
          regKeys_mem_pmAdd] at hmem
        rcases hmem with h1 | h2
        · exact hp h1
        · exact h.1 (by simpa [regKeys] using h2)
      · exact ih h.2

/-- updatePortPasswd does not disturb other ports in the registry. -/
theorem updatePortPasswd_get_ne (s : ServerState) (p pw q : String) (hq : q ≠ p) :
    pmGet (updatePortPasswd s p pw).portListener q = pmGet s.portListener q := by
  unfold updatePortPasswd
  rcases hg : pmGet s.portListener p with _ | pl
  · simp only [runStart, pmGet_pmAdd]
    rw [if_neg (fun h => hq h.symm)]
  · by_cases hpw : pl.password = pw
    · simp [hpw]
    · simp only [hpw, if_false, runStart, closeListener, pmGet_pmAdd]
      rw [if_neg (fun h => hq h.symm)]

/-- updatePortPasswd preserves registry key uniqueness. -/
theorem updatePortPasswd_nodup (s : ServerState) (p pw : String)
    (h : (regKeys s.portListener).Nodup) :
    (regKeys (updatePortPasswd s p pw).portListener).Nodup := by
  unfold updatePortPasswd
  rcases hg : pmGet s.portListener p with _ | pl
  · exact regKeys_pmAdd_nodup _ _ _ h
  · by_cases hpw : pl.password = pw
    · simpa [hpw] using h
    · simp only [hpw, if_false]
      exact regKeys_pmAdd_nodup _ _ _ h

/-- pmDel does not disturb other ports. -/
theorem pmDel_get_ne (s : ServerState) (p q : String) (hq : q ≠ p) :
    pmGet (pmDel s p).portListener q = pmGet s.portListener q := by
  unfold pmDel
  rcases hg : pmGet s.portListener p with _ | pl
  · rfl
  · simp only [closeListener]
    exact pmGet_pmDelete_ne _ _ _ hq

/-- pmDel removes its own port from the registry (unique keys). -/
theorem pmDel_get_self (s : ServerState) (p : String)
    (h : (regKeys s.portListener).Nodup) :
    pmGet (pmDel s p).portListener p = none := by
  unfold pmDel
  rcases hg : pmGet s.portListener p with _ | pl
  · exact hg
  · simp only [closeListener]
    exact pmGet_pmDelete_self _ _ h

/-- pmDel preserves registry key uniqueness. -/
theorem pmDel_nodup (s : ServerState) (p : String)
    (h : (regKeys s.portListener).Nodup) :
    (regKeys (pmDel s p).portListener).Nodup := by
  unfold pmDel
  rcases hg : pmGet s.portListener p with _ | pl
  · exact h
  · simp only [closeListener]
    exact (regKeys_pmDelete_sublist _ _).nodup h

/-- pmDel never reopens a socket. -/
theorem pmDel_sockClosed_mono (s : ServerState) (p : String) (i : Nat)
    (h : sockClosed s i) : sockClosed (pmDel s p) i := by
  unfold pmDel
  rcases hg : pmGet s.portListener p with _ | pl
  · exact h
  · intro sk hsk hid
    simp only [closeListener, List.mem_map] at hsk
    obtain ⟨sk0, hsk0, hmap⟩ := hsk
    by_cases h0 : sk0.id = pl.listener
    · rw [if_pos h0] at hmap
      subst hmap
      rfl
    · rw [if_neg h0] at hmap
      subst hmap
      exact h sk0 hsk0 hid

/-- pmDel closes the listener of the port it removes. -/
theorem pmDel_closes (s : ServerState) (p : String) (pl : PortListener)
    (hg : pmGet s.portListener p = some pl) : sockClosed (pmDel s p) pl.listener := by
  unfold pmDel
  rw [hg]
  intro sk hsk hid
  simp only [closeListener, List.mem_map] at hsk
  obtain ⟨sk0, hsk0, hmap⟩ := hsk
  by_cases h0 : sk0.id = pl.listener
  · rw [if_pos h0] at hmap
    subst hmap
    rfl
  · rw [if_neg h0] at hmap
    subst hmap
    exact absurd hid h0

/-- pmDel of an unregistered port is the identity. -/
theorem pmDel_of_get_none (s : ServerState) (p : String)
    (h : pmGet s.portListener p = none) : pmDel s p = s := by
  unfold pmDel
  rw [h]

/-- Folding updatePortPasswd over a configuration does not disturb ports
outside that configuration. -/
theorem foldU_get_not_mem (cfg : List (String × String)) (s : ServerState) (q : String)
    (h : q ∉ cfgKeys cfg) :
    pmGet ((cfg.foldl (fun st pc => updatePortPasswd st pc.1 pc.2) s)).portListener q =
      pmGet s.portListener q := by
  induction cfg generalizing s with
  | nil => rfl
  | cons pc rest ih =>
    simp only [cfgKeys, List.map_cons, List.mem_cons, not_or] at h
    simp only [List.foldl_cons]
    rw [ih _ (by simpa [cfgKeys] using h.2)]
    exact updatePortPasswd_get_ne s pc.1 pc.2 q h.1

/-- Folding updatePortPasswd preserves registry key uniqueness. -/
theorem foldU_nodup (cfg : List (String × String)) (s : ServerState)
    (h : (regKeys s.portListener).Nodup) :
    (regKeys ((cfg.foldl (fun st pc => updatePortPasswd st pc.1 pc.2) s)).portListener).Nodup := by
  induction cfg generalizing s with
  | nil => exact h
  | cons pc rest ih =>
    simp only [List.foldl_cons]
    exact ih _ (updatePortPasswd_nodup s pc.1 pc.2 h)

/-- Ports registered after the updatePortPasswd fold were in the new
configuration or already registered. -/
theorem foldU_isSome (cfg : List (String × String)) (s : ServerState) (q : String)
    (h : (pmGet ((cfg.foldl (fun st pc => updatePortPasswd st pc.1 pc.2) s)).portListener q).isSome
      = true) :
    q ∈ cfgKeys cfg ∨ (pmGet s.portListener q).isSome = true := by
  induction cfg generalizing s with
  | nil => exact Or.inr h
  | cons pc rest ih =>
    simp only [List.foldl_cons] at h
    rcases ih _ h with h1 | h2
    · exact Or.inl (by simp [cfgKeys] at h1 ⊢; tauto)
    · by_cases hq : q = pc.1
      · exact Or.inl (by simp [cfgKeys, hq])
      · rw [updatePortPasswd_get_ne s pc.1 pc.2 q hq] at h2
        exact Or.inr h2

/-- Folding pmDel preserves closedness of any socket id. -/
theorem foldD_sockClosed (L : List (String × String)) (s : ServerState) (i : Nat)
    (h : sockClosed s i) :
    sockClosed (L.foldl (fun st pc => pmDel st pc.1) s) i := by
  induction L generalizing s with
  | nil => exact h
  | cons pc rest ih =>
    simp only [List.foldl_cons]
    exact ih _ (pmDel_sockClosed_mono s pc.1 i h)

/-- Folding pmDel keeps an unregistered port unregistered. -/
theorem foldD_get_none (L : List (String × String)) (s : ServerState) (q : String)
    (h : pmGet s.portListener q = none) :
    pmGet ((L.foldl (fun st pc => pmDel st pc.1) s)).portListener q = none := by
  induction L generalizing s with
  | nil => exact h
  | cons pc rest ih =>
    simp only [List.foldl_cons]
    refine ih _ ?_
    by_cases hq : q = pc.1
    · rw [show pmDel s pc.1 = s from by rw [← hq]; exact pmDel_of_get_none s q h]
      exact h
    · rw [pmDel_get_ne s pc.1 q hq]
      exact h

/-- Every port of the deleted-ports list is unregistered after the pmDel
fold (unique registry keys). -/
theorem foldD_get_mem (L : List (String × String)) (s : ServerState) (q : String)
    (hq : q ∈ cfgKeys L) (hnod : (regKeys s.portListener).Nodup) :
    pmGet ((L.foldl (fun st pc => pmDel st pc.1) s)).portListener q = none := by
  induction L generalizing s with
  | nil => simp [cfgKeys] at hq
  | cons pc rest ih =>
    simp only [List.foldl_cons]
    by_cases hy : q = pc.1
    · have h0 : pmGet (pmDel s pc.1).portListener q = none := by
        rw [hy]
        exact pmDel_get_self s pc.1 hnod
      exact foldD_get_none rest _ q h0
    · have hmem2 : q ∈ cfgKeys rest := by
        simp only [cfgKeys, List.map_cons, List.mem_cons] at hq
        tauto
      exact ih _ hmem2 (pmDel_nodup s pc.1 hnod)

/-- The pmDel fold closes the listener registered for any port it deletes. -/
theorem foldD_closes (L : List (String × String)) (s : ServerState) (p : String)
    (pl : PortListener) (hp : p ∈ cfgKeys L) (hg : pmGet s.portListener p = some pl) :
    sockClosed (L.foldl (fun st pc => pmDel st pc.1) s) pl.listener := by
  induction L generalizing s with
  | nil => simp [cfgKeys] at hp
  | cons pc rest ih =>
    simp only [List.foldl_cons]
    by_cases hy : p = pc.1
    · have h0 : pmGet s.portListener pc.1 = some pl := by
        rw [← hy]
        exact hg
      exact foldD_sockClosed rest _ _ (pmDel_closes s pc.1 pl h0)
    · have hmem : p ∈ cfgKeys rest := by
        simp only [cfgKeys, List.map_cons, List.mem_cons] at hp
        tauto
      refine ih _ hmem ?_
      rw [pmDel_get_ne s pc.1 p hy]
      exact hg

/-- The pmDel fold does not disturb ports outside the deleted list. -/
theorem foldD_get_not_mem (L : List (String × String)) (s : ServerState) (q : String)
    (h : q ∉ cfgKeys L) :
    pmGet ((L.foldl (fun st pc => pmDel st pc.1) s)).portListener q = pmGet s.portListener q := by
  induction L generalizing s with
  | nil => rfl
  | cons pc rest ih =>
    simp only [cfgKeys, List.map_cons, List.mem_cons, not_or] at h
    simp only [List.foldl_cons]
    rw [ih _ (by simpa [cfgKeys] using h.2)]
    exact pmDel_get_ne s pc.1 q h.1

/-- Membership in the leftover (old-minus-new) port list. -/
theorem mem_leftover (oldCfg newCfg : List (String × String)) (q : String) :
    q ∈ cfgKeys (oldCfg.filter (fun pc => !(newCfg.any (fun qc => qc.1 == pc.1)))) ↔
      q ∈ cfgKeys oldCfg ∧ q ∉ cfgKeys newCfg := by
  simp only [cfgKeys, List.mem_map, List.mem_filter, Bool.not_eq_true', List.any_eq_false,
    beq_eq_false_iff_ne, ne_eq]
  aesop

/-- updatePasswd unfolded to its two folds. -/
theorem updatePasswd_eq (s : ServerState) (oldCfg newCfg : List (String × String)) :
    updatePasswd s oldCfg newCfg =
      (oldCfg.filter (fun pc => !(newCfg.any (fun qc => qc.1 == pc.1)))).foldl
        (fun st pc => pmDel st pc.1)
        (newCfg.foldl (fun st pc => updatePortPasswd st pc.1 pc.2) s) := rfl

/-- Claim C8: after a reload whose new configuration omits a registered
port p, that port's listener is closed and its record removed (a get on p
returns none), and - when the registry keys were exactly the old
configuration's ports - no port outside the new configuration remains
registered. -/
theorem c8_reload (s0 : ServerState) (oldCfg newCfg : List (String × String)) (p : String)
    (pl0 : PortListener)
    (hnodReg : (regKeys s0.portListener).Nodup)
    (hkeys : ∀ q, (pmGet s0.portListener q).isSome = true ↔ q ∈ cfgKeys oldCfg)
    (hpold : p ∈ cfgKeys oldCfg)
    (hpnew : p ∉ cfgKeys newCfg)
    (hpl : pmGet s0.portListener p = some pl0) :
    pmGet (updatePasswd s0 oldCfg newCfg).portListener p = none ∧
    sockClosed (updatePasswd s0 oldCfg newCfg) pl0.listener ∧
    ∀ q, (pmGet (updatePasswd s0 oldCfg newCfg).portListener q).isSome = true →
      q ∈ cfgKeys newCfg := by
  rw [updatePasswd_eq]
  have hnod1 : (regKeys ((newCfg.foldl (fun st pc => updatePortPasswd st pc.1 pc.2)
      s0)).portListener).Nodup := foldU_nodup newCfg s0 hnodReg
  have hpL : p ∈ cfgKeys (oldCfg.filter (fun pc => !(newCfg.any (fun qc => qc.1 == pc.1)))) :=
    (mem_leftover oldCfg newCfg p).mpr ⟨hpold, hpnew⟩
  refine ⟨?_, ?_, ?_⟩
  · exact foldD_get_mem _ _ p hpL hnod1
  · have hs1p : pmGet ((newCfg.foldl (fun st pc => updatePortPasswd st pc.1 pc.2)
        s0)).portListener p = some pl0 := by
      rw [foldU_get_not_mem newCfg s0 p hpnew]
      exact hpl
    exact foldD_closes _ _ p pl0 hpL hs1p
  · intro q hq
    by_cases hqL : q ∈ cfgKeys (oldCfg.filter (fun pc => !(newCfg.any (fun qc => qc.1 == pc.1))))
    · rw [foldD_get_mem _ _ q hqL hnod1] at hq
      simp at hq
    · rw [foldD_get_not_mem _ _ q hqL] at hq
      rcases foldU_isSome newCfg s0 q hq with h1 | h2
      · exact h1
      · have hqo : q ∈ cfgKeys oldCfg := (hkeys q).mp h2
        by_contra hqn
        exact hqL ((mem_leftover oldCfg newCfg q).mpr ⟨hqo, hqn⟩)

/-- Claim C8 witness: reloading from port 8388 to port 8389 removes 8388
from the registry and closes its listener socket. -/
theorem c8_witness :
    pmGet (updatePasswd ⟨[("8388", ⟨"a", 0⟩)], [⟨0, "8388", true⟩], 1⟩
      [("8388", "a")] [("8389", "b")]).portListener "8388" = none ∧
    sockClosed (updatePasswd ⟨[("8388", ⟨"a", 0⟩)], [⟨0, "8388", true⟩], 1⟩
      [("8388", "a")] [("8389", "b")]) 0 := by
  have hkeys : ∀ q,
      (pmGet (ServerState.mk [("8388", ⟨"a", 0⟩)] [⟨0, "8388", true⟩] 1).portListener q).isSome
        = true ↔ q ∈ cfgKeys [("8388", "a")] := by
    intro q
    by_cases h : "8388" = q
    · simp [pmGet, cfgKeys, h]
    · simp only [pmGet, if_neg h, cfgKeys]
      constructor
      · intro hs
        simp [pmGet] at hs
      · intro hm
        simp at hm
        exact (h hm.symm).elim
  have H := c8_reload ⟨[("8388", ⟨"a", 0⟩)], [⟨0, "8388", true⟩], 1⟩ [("8388", "a")]
    [("8389", "b")] "8388" ⟨"a", 0⟩ (by decide) hkeys (by decide) (by decide) (by decide)
  exact ⟨H.1, H.2.1⟩

/-- Sealing adds exactly the tag overhead to the length. -/
theorem aeadSeal_length (nonce : Nat) (pt : List Nat) :
    (aeadSeal nonce pt).length = pt.length + tagOverhead := by
  simp [aeadSeal]

/-- The byte transform of aeadOpen inverts the byte transform of aeadSeal. -/
theorem byte_roundtrip (b nonce : Nat) (hb : b < 256) :
    ((b + nonce) % 256 + 256 - nonce % 256) % 256 = b := by
  omega

/-- Opening a sealed message under the same nonce returns the plaintext. -/
theorem aeadOpen_aeadSeal (nonce : Nat) (pt : List Nat) (h : ∀ b ∈ pt, b < 256) :
    aeadOpen nonce (aeadSeal nonce pt) = some pt := by
  unfold aeadOpen aeadSeal
  rw [if_neg (by simp [tagOverhead])]
  rw [show (pt.map (fun b => (b + nonce) % 256) ++
      List.replicate tagOverhead (nonce % 256)).length - tagOverhead = pt.length from by
    simp]
  have hlenm : (pt.map (fun b => (b + nonce) % 256)).length = pt.length := by simp
  rw [← hlenm, List.drop_left, List.take_left, if_pos rfl]
  rw [List.map_map]
  refine congrArg some ?_
  have hcong : ∀ b ∈ pt,
      ((fun c => (c + 256 - nonce % 256) % 256) ∘ fun b => (b + nonce) % 256) b = b := by
    intro b hbm
    simpa using byte_roundtrip b nonce (h b hbm)
  calc pt.map (((fun c => (c + 256 - nonce % 256) % 256) ∘ fun b => (b + nonce) % 256))
      = pt.map id := List.map_congr_left hcong
    _ = pt := List.map_id pt

/-- On a well-formed header for a payload of size at most the mask, the
UnPack size computation does recover the size - for such headers the high
byte is below 0x40, so the misplaced mask happens not to matter. -/
theorem payloadSize_correct (L : Nat) (h : L ≤ getPayloadSizeMask) :
    payloadSizeFromHeader ((L >>> 8) % 256) (L % 256) = L := by
  unfold payloadSizeFromHeader getPayloadSizeMask at *
  have h1 : L >>> 8 = L / 256 := by
    rw [Nat.shiftRight_eq_div_pow]
  have h2 : L / 256 < 256 := by omega
  have h3 : L % 256 &&& 16383 = L % 256 := by
    rw [show (16383 : Nat) = 2 ^ 14 - 1 from by norm_num, Nat.and_pow_two_sub_one_eq_mod]
    norm_num
    omega
  rw [h1, Nat.mod_eq_of_lt h2, h3, Nat.shiftLeft_eq]
  omega

/-- ConnAead.UnPack consumes one well-formed chunk from the stream and
returns its payload, the unread rest, and the twice-incremented nonce. -/
theorem ConnAead_UnPack_chunk (st : CipherState) (pl rest : List Nat)
    (hlen : pl.length ≤ getPayloadSizeMask) (hb : ∀ b ∈ pl, b < 256) :
    ConnAead.UnPack st
      (aeadSeal st.nonce [(pl.length >>> 8) % 256, pl.length % 256] ++
        (aeadSeal (st.nonce + 1) pl ++ rest)) =
      some (pl, rest, ⟨st.nonce + 2⟩) := by
  have hHlen : (aeadSeal st.nonce [(pl.length >>> 8) % 256, pl.length % 256]).length
      = 2 + tagOverhead := by
    rw [aeadSeal_length]
    simp
  have hPlen : (aeadSeal (st.nonce + 1) pl).length = pl.length + tagOverhead :=
    aeadSeal_length _ _
  have hdecH : Decrypt st (aeadSeal st.nonce [(pl.length >>> 8) % 256, pl.length % 256])
      = (some [(pl.length >>> 8) % 256, pl.length % 256], ⟨st.nonce + 1⟩) := by
    unfold Decrypt
    rw [aeadOpen_aeadSeal]
    intro b hbm
    simp at hbm
    rcases hbm with h | h <;> omega
  have hdecP : Decrypt (⟨st.nonce + 1⟩ : CipherState) (aeadSeal (st.nonce + 1) pl)
      = (some pl, ⟨st.nonce + 2⟩) := by
    unfold Decrypt
    rw [aeadOpen_aeadSeal _ _ hb]
  unfold ConnAead.UnPack
  rw [if_neg (by simp only [List.length_append, hHlen]; omega)]
  rw [← hHlen, List.take_left, List.drop_left, hdecH]
  simp only [payloadSize_correct pl.length hlen]
  rw [if_neg (by simp only [List.length_append, hPlen]; omega)]
  rw [show pl.length + tagOverhead = (aeadSeal (st.nonce + 1) pl).length from hPlen.symm,
    List.take_left, List.drop_left, hdecP]
  simp [List.take_length]

/-- ConnAead_UnPack_chunk with the header size named separately. -/
theorem ConnAead_UnPack_chunk_sized (st : CipherState) (L : Nat) (pl rest : List Nat)
    (hL : pl.length = L) (hlen : L ≤ getPayloadSizeMask) (hb : ∀ b ∈ pl, b < 256) :
    ConnAead.UnPack st
      (aeadSeal st.nonce [(L >>> 8) % 256, L % 256] ++ (aeadSeal (st.nonce + 1) pl ++ rest)) =
      some (pl, rest, ⟨st.nonce + 2⟩) := by
  subst hL
  exact ConnAead_UnPack_chunk st pl rest hlen hb

/-- ConnAead_UnPack_chunk for the final chunk of a stream. -/
theorem ConnAead_UnPack_chunk_last (st : CipherState) (L : Nat) (pl : List Nat)
    (hL : pl.length = L) (hlen : L ≤ getPayloadSizeMask) (hb : ∀ b ∈ pl, b < 256) :
    ConnAead.UnPack st
      (aeadSeal st.nonce [(L >>> 8) % 256, L % 256] ++ aeadSeal (st.nonce + 1) pl) =
      some (pl, [], ⟨st.nonce + 2⟩) := by
  have h := ConnAead_UnPack_chunk_sized st L pl [] hL hlen hb
  rwa [List.append_nil] at h

/-- The ceiling chunk count is two in the one-extra-chunk range. -/
theorem chunkNum_two (n : Nat) (h1 : getPayloadSizeMask < n) (h2 : n ≤ 2 * getPayloadSizeMask) :
    (n + (getPayloadSizeMask - 1)) / getPayloadSizeMask = 2 := by
  unfold getPayloadSizeMask at *
  omega

/-- ConnAead.Pack on a payload needing two chunks: the second chunk seals
data.take (n - mask) - the PREFIX of the buffer again, not the remainder -
because the source never advances packet_data. -/
theorem Pack_two_chunks (st : CipherState) (data : List Nat)
    (h1 : getPayloadSizeMask < data.length) (h2 : data.length ≤ 2 * getPayloadSizeMask) :
    ConnAead.Pack st data =
      ([aeadSeal st.nonce [(getPayloadSizeMask >>> 8) % 256, getPayloadSizeMask % 256] ++
          aeadSeal (st.nonce + 1) (data.take getPayloadSizeMask),
        aeadSeal (st.nonce + 2) [((data.length - getPayloadSizeMask) >>> 8) % 256,
            (data.length - getPayloadSizeMask) % 256] ++
          aeadSeal (st.nonce + 3) (data.take (data.length - getPayloadSizeMask))],
       ⟨st.nonce + 4⟩) := by
  unfold ConnAead.Pack
  rw [chunkNum_two data.length h1 h2]
  simp only [packChunks, Encrypt]
  rw [if_pos (show data.length > getPayloadSizeMask from h1)]
  rw [if_neg (show ¬(data.length - getPayloadSizeMask > getPayloadSizeMask) from by
    unfold getPayloadSizeMask at *
    omega)]

/-- Unpacking the two packed chunks of an oversized payload yields the
first mask bytes followed by the first (n - mask) bytes again. -/
theorem unPackAll_two (st : CipherState) (data : List Nat)
    (h1 : getPayloadSizeMask < data.length) (h2 : data.length ≤ 2 * getPayloadSizeMask)
    (hb : ∀ b ∈ data, b < 256) :
    unPackAll 2 st ((ConnAead.Pack st data).1).flatten [] =
      some (data.take getPayloadSizeMask ++ data.take (data.length - getPayloadSizeMask), [],
        ⟨st.nonce + 4⟩) := by
  have hTake1 : (data.take getPayloadSizeMask).length = getPayloadSizeMask := by
    rw [List.length_take]
    exact Nat.min_eq_left (Nat.le_of_lt h1)
  have hTake2 : (data.take (data.length - getPayloadSizeMask)).length
      = data.length - getPayloadSizeMask := by
    rw [List.length_take]
    exact Nat.min_eq_left (by omega)
  have hb1 : ∀ b ∈ data.take getPayloadSizeMask, b < 256 :=
    fun b hbm => hb b (List.take_subset _ _ hbm)
  have hb2 : ∀ b ∈ data.take (data.length - getPayloadSizeMask), b < 256 :=
    fun b hbm => hb b (List.take_subset _ _ hbm)
  rw [Pack_two_chunks st data h1 h2]
  simp only [List.flatten_cons, List.flatten_nil, List.append_nil, List.append_assoc]
  simp only [unPackAll]
  rw [ConnAead_UnPack_chunk_sized st getPayloadSizeMask _ _ hTake1 (Nat.le_refl _) hb1]
  dsimp only
  rw [ConnAead_UnPack_chunk_last _ (data.length - getPayloadSizeMask) _ hTake2 (by
    unfold getPayloadSizeMask at *
    omega) hb2]
  simp

/-- Claim C1 refuted at a 16384-byte payload: Pack does emit exactly
ceil(n/0x3FFF) = 2 chunks, but unpacking them reproduces the first 16383
bytes followed by the FIRST byte of the buffer again (Pack never advances
packet_data between chunks), so the accumulated output differs from the
original bytes. -/
theorem c1_pack_unpack_bug :
    (ConnAead.Pack ⟨0⟩ (List.replicate 16383 0 ++ [1])).1.length =
      ((List.replicate 16383 (0 : Nat) ++ [1]).length + (getPayloadSizeMask - 1)) /
        getPayloadSizeMask ∧
    unPackAll 2 ⟨0⟩ ((ConnAead.Pack ⟨0⟩ (List.replicate 16383 0 ++ [1])).1).flatten [] =
      some (List.replicate 16383 0 ++ [0], [], ⟨4⟩) ∧
    List.replicate 16383 (0 : Nat) ++ [0] ≠ List.replicate 16383 0 ++ [1] := by
  have h1 : getPayloadSizeMask < (List.replicate 16383 (0 : Nat) ++ [1]).length := by
    norm_num [getPayloadSizeMask]
  have h2 : (List.replicate 16383 (0 : Nat) ++ [1]).length ≤ 2 * getPayloadSizeMask := by
    norm_num [getPayloadSizeMask]
  have hb : ∀ b ∈ List.replicate 16383 (0 : Nat) ++ [1], b < 256 := by
    intro b hbm
    rcases List.mem_append.mp hbm with hm | hm
    · rw [List.eq_of_mem_replicate hm]
      omega
    · simp at hm
      omega
  refine ⟨?_, ?_, ?_⟩
  · rw [Pack_two_chunks ⟨0⟩ _ h1 h2]
    norm_num [getPayloadSizeMask]
  · rw [unPackAll_two ⟨0⟩ _ h1 h2 hb]
    have ht2len : (List.replicate 16383 (0 : Nat) ++ [1]).length - getPayloadSizeMask = 1 := by
      norm_num [getPayloadSizeMask]
    have ht1 : (List.replicate 16383 (0 : Nat) ++ [1]).take getPayloadSizeMask =
        List.replicate 16383 (0 : Nat) := by
      rw [show getPayloadSizeMask = (List.replicate 16383 (0 : Nat)).length from by
        rw [List.length_replicate]
        rfl]
      exact List.take_left _ _
    have ht2 : (List.replicate 16383 (0 : Nat) ++ [1]).take 1 = [0] := by
      rw [List.take_append_of_le_length (by norm_num), List.take_replicate]
      norm_num
    rw [ht2len, ht1, ht2]
  · intro h
    exact absurd (List.append_cancel_left h) (by decide)

end SS
